import Mathlib

/-!
# Contract time-slice service: the write operation and its selection helper

A shallow embedding of `internal/repository/repository.go` and
`internal/model/model.go`.

* Go `int64` values are `Int`. The code only compares and copies them, so no
  wrap-around arithmetic is involved.
* Go `time.Time` is an instant, a number of nanoseconds since the zero time
  (January 1, year 1, 00:00:00 UTC). `Truncate` and `Equal` depend only on the instant.
* Go `map[int64]bool` is its lookup function `Int → Bool` (absent key: `false`).
* The table `time_slices` is the list of its committed rows in insertion order.
  Column values are stored and read back as given.
* Every call of the database driver is resolved by a `StoreOutcomes` record: it says
  which calls fail, and which identifier and creation timestamp the server assigns
  to an inserted row. A call that does not fail has the effect of its SQL text.
  The iteration over a result can also end early on an error; `GetTimeSlicesByContract`
  returns that error (`rows.Err()`), `CreateTimeSlice` does not look at it and goes on
  with the rows it got, and its next call on the transaction fails.
* A transaction works on its own copy of the table. Only a `Commit` that does not fail
  publishes the copy; every other way out of `CreateTimeSlice` is a rollback.
* Calls are executed one after the other.
-/

namespace ContractService

/-! ## Time -/

/-- Go `time.Time`, reduced to the instant it denotes. -/
structure Time where
  nanos : Int
  deriving DecidableEq, Repr

/-- Go `time.Duration`, a number of nanoseconds. -/
abbrev Duration := Int

/-- Go `time.Hour`. -/
def Hour : Duration := 3600 * 1000000000

/-- Go `Time.Truncate`: round down to a multiple of `d` since the zero time;
`d <= 0` returns the time unchanged. -/
def Time.Truncate (t : Time) (d : Duration) : Time :=
  if d ≤ 0 then t else ⟨t.nanos - t.nanos % d⟩

/-- Go `Time.Equal`: same instant. -/
def Time.Equal (t u : Time) : Bool :=
  decide (t.nanos = u.nanos)

/-- Midnight UTC of the day that lies `days` days after the zero time. -/
def Time.ofDays (days : Int) : Time :=
  ⟨days * (24 * Hour)⟩

/-- 2024-01-10T00:00:00Z (738894 days after 0001-01-01). -/
def date_2024_01_10 : Time := Time.ofDays 738894

/-- 2024-02-01T00:00:00Z (738916 days after 0001-01-01). -/
def date_2024_02_01 : Time := Time.ofDays 738916

/-! ## model.go -/

/-- The request body, `model.IncomingPayload`. -/
structure IncomingPayload where
  ContractID : String
  ArticleIDs : List Int
  ValidityTag : String
  InvoiceDate : Time
  deriving DecidableEq, Repr

/-- A stored row, `model.TimeSlice`. -/
structure TimeSlice where
  ID : Int
  ContractID : String
  TopArticleID : Int
  ValidityTag : String
  InvoiceDate : Time
  CreatedAt : Time
  deriving DecidableEq, Repr

/-- The error values `CreateTimeSlice` can meet: the sentinel of `model.go`, the
driver sentinel `pgx.ErrNoRows`, and any other driver or server error. -/
inductive Error where
  | ErrAllArticlesKnown
  | ErrNoRows
  | storeFailure (code : Nat)
  deriving DecidableEq, Repr

/-! ## highestNew -/

/-- Go `map[int64]bool`, read through its lookup. -/
abbrev KnownMap := Int → Bool

/-- The empty map, `make(map[int64]bool)`. -/
def KnownMap.empty : KnownMap := fun _ => false

/-- The assignment `known[id] = true`. -/
def KnownMap.set (known : KnownMap) (id : Int) : KnownMap :=
  fun k => if k = id then true else known k

/-- One iteration of the loop of `highestNew` on the pair `(max, found)`. -/
def highestNewStep (known : KnownMap) (st : Int × Bool) (id : Int) : Int × Bool :=
  if !known id && (!st.2 || decide (id > st.1)) then (id, true) else st

/-- The Go function `highestNew`: the loop over `ids` from `max = 0`, `found = false`. -/
def highestNew (ids : List Int) (known : KnownMap) : Int × Bool :=
  ids.foldl (highestNewStep known) (0, false)

/-- Reference selection, written from the specification: the maximum of the
candidates that are not members of `known`, with `found = true`; when there is no such
candidate, `found = false` and the zero value. -/
def highestNewReference (ids : List Int) (known : KnownMap) : Int × Bool :=
  match (ids.filter (fun id => !known id)).max? with
  | some m => (m, true)
  | none => (0, false)

/-! ## The store -/

/-- The table `time_slices`: its committed rows, in insertion order. -/
abbrev Store := List TimeSlice

/-- How the store answers the driver calls of one `CreateTimeSlice`: for each call
whether it fails (with which error code), and what the server assigns to an inserted
row. The schema is not part of the sources, so the `id` and `created_at` that the
INSERT statement leaves to the server are taken from here. -/
structure StoreOutcomes where
  /-- Failure of `r.db.Begin`. -/
  beginErr : Option Nat
  /-- Failure of `tx.Query` (the known-IDs query). -/
  queryErr : Option Nat
  /-- An error that ends the iteration `rows.Next()` of the known-IDs query after the
  given number of rows. `CreateTimeSlice` does not consult `rows.Err()`, so the error
  only shows in the next call on the transaction, which fails with the given code. -/
  rowsErr : Option (Nat × Nat)
  /-- Failure of `rows.Scan` on the row with the given index. -/
  scanErr : Nat → Option Nat
  /-- Failure of `row.Scan` of the latest invoice date, other than `pgx.ErrNoRows`,
  after an iteration that no error has ended. -/
  latestErr : Option Nat
  /-- Failure of `tx.Exec` (the UPDATE). -/
  execErr : Option Nat
  /-- Failure of the INSERT or of the `Scan` of its `RETURNING id`. -/
  insertErr : Option Nat
  /-- The `id` the server assigns to the inserted row. -/
  newID : Int
  /-- The `created_at` the server assigns to the inserted row. -/
  createdAt : Time
  /-- Failure of `tx.Commit`; the transaction is then not committed. -/
  commitErr : Option Nat

/-- The outcomes of a call in which no driver call fails. -/
def StoreOutcomes.ok (newID : Int) (createdAt : Time) : StoreOutcomes :=
  ⟨none, none, none, fun _ => none, none, none, none, newID, createdAt, none⟩

/-- The rows that a loop `for rows.Next()` gets to see: all rows of the result, or
only the first `n` of them when an error ends the iteration early. -/
def deliveredRows {α : Type} (rowsErr : Option (Nat × Nat)) (rows : List α) : List α :=
  match rowsErr with
  | some (n, _) => rows.take n
  | none => rows

/-- The failure of `row.Scan` of step 3. An error that has ended the iteration of
step 1 leaves a transaction that cannot be used any more (the driver closes the
connection on a read error, the server aborts the transaction on a statement error),
so the call of step 3, the next one on the transaction, fails. -/
def StoreOutcomes.latestFailure (o : StoreOutcomes) : Option Nat :=
  match o.rowsErr with
  | some (_, e) => some e
  | none => o.latestErr

/-- `WHERE contract_id = $1`. -/
def whereContract (rows : Store) (contractID : String) : List TimeSlice :=
  rows.filter (fun r => decide (r.ContractID = contractID))

/-- `SELECT top_article_id FROM time_slices WHERE contract_id = $1`. -/
def selectTopArticleIDs (tx : Store) (contractID : String) : List Int :=
  (whereContract tx contractID).map (fun r => r.TopArticleID)

/-- The loop `for rows.Next() { rows.Scan(&id); known[id] = true }` of step 1 over the
rows that `rows.Next()` delivers, from the row with index `i` on. -/
def scanKnown (scanErr : Nat → Option Nat) : List Int → Nat → KnownMap → Except Error KnownMap
  | [], _, known => .ok known
  | id :: rest, i, known =>
    match scanErr i with
    | some e => .error (.storeFailure e)
    | none => scanKnown scanErr rest (i + 1) (known.set id)

/-- `ORDER BY created_at DESC`. SQL leaves the order of rows with equal `created_at`
open; here they keep their insertion order. -/
def orderByCreatedAtDesc (rows : List TimeSlice) : List TimeSlice :=
  rows.insertionSort (fun a b => b.CreatedAt.nanos ≤ a.CreatedAt.nanos)

/-- `SELECT invoice_date FROM time_slices WHERE contract_id = $1
ORDER BY created_at DESC LIMIT 1`, followed by `row.Scan(&tmp)`. -/
def scanLatestInvoiceDate (latestErr : Option Nat) (tx : Store) (contractID : String) :
    Except Error Time :=
  match latestErr with
  | some e => .error (.storeFailure e)
  | none =>
    match (orderByCreatedAtDesc (whereContract tx contractID)).head? with
    | some r => .ok r.InvoiceDate
    | none => .error .ErrNoRows

/-- `UPDATE time_slices SET invoice_date = $1 WHERE contract_id = $2`. -/
def updateInvoiceDate (tx : Store) (invoiceDate : Time) (contractID : String) : Store :=
  tx.map (fun r => if r.ContractID = contractID then { r with InvoiceDate := invoiceDate } else r)

/-- `INSERT INTO time_slices (contract_id, top_article_id, validity_tag, invoice_date)
VALUES ($1, $2, $3, $4)`, with the server-assigned `id` and `created_at`. -/
def insertTimeSlice (tx : Store) (newID : Int) (createdAt : Time) (contractID : String)
    (topArticleID : Int) (validityTag : String) (invoiceDate : Time) : Store :=
  tx ++ [⟨newID, contractID, topArticleID, validityTag, invoiceDate, createdAt⟩]

/-- The condition of step 3: `existingInvoiceDate != nil` and the two dates differ
after `Truncate(24*time.Hour)`. -/
def invoiceDateDiffers (existingInvoiceDate : Option Time) (invoiceDate : Time) : Bool :=
  match existingInvoiceDate with
  | some existing => !(existing.Truncate (24 * Hour)).Equal (invoiceDate.Truncate (24 * Hour))
  | none => false

/-- Steps 3 (second half) and 4 of `CreateTimeSlice`, after the latest invoice date
has been read: the conditional UPDATE, the INSERT and the commit. -/
def writeTimeSlice (db : Store) (o : StoreOutcomes) (p : IncomingPayload)
    (topArticleID : Int) (existingInvoiceDate : Option Time) : (Int × Option Error) × Store :=
  let updated : Except Error Store :=
    if invoiceDateDiffers existingInvoiceDate p.InvoiceDate then
      match o.execErr with
      | some e => .error (.storeFailure e)
      | none => .ok (updateInvoiceDate db p.InvoiceDate p.ContractID)
    else .ok db
  match updated with
  | .error err => ((0, some err), db)
  | .ok tx =>
    match o.insertErr with
    | some e => ((0, some (.storeFailure e)), db)
    | none =>
      let tx2 := insertTimeSlice tx o.newID o.createdAt p.ContractID topArticleID
        p.ValidityTag p.InvoiceDate
      match o.commitErr with
      | some e => ((o.newID, some (.storeFailure e)), db)
      | none => ((o.newID, none), tx2)

/-- The Go method `CreateTimeSlice`: the returned pair `(int64, error)` and the
committed table after the call. The transaction works on a copy of the table; every
return before a successful commit leaves the table as it was (`defer tx.Rollback`).
The map `known` of step 1 holds the rows that the iteration delivered, which are not
all rows of the contract when an error has ended the iteration. -/
def CreateTimeSlice (db : Store) (o : StoreOutcomes) (p : IncomingPayload) :
    (Int × Option Error) × Store :=
  match o.beginErr with
  | some e => ((0, some (.storeFailure e)), db)
  | none =>
    match o.queryErr with
    | some e => ((0, some (.storeFailure e)), db)
    | none =>
      match scanKnown o.scanErr
          (deliveredRows o.rowsErr (selectTopArticleIDs db p.ContractID)) 0 KnownMap.empty with
      | .error err => ((0, some err), db)
      | .ok known =>
        let sel := highestNew p.ArticleIDs known
        if !sel.2 then ((0, some .ErrAllArticlesKnown), db)
        else
          match scanLatestInvoiceDate o.latestFailure db p.ContractID with
          | .ok tmp => writeTimeSlice db o p sel.1 (some tmp)
          | .error err =>
            if err ≠ .ErrNoRows then ((0, some err), db)
            else writeTimeSlice db o p sel.1 none

/-- How the store answers the driver calls of one `GetTimeSlicesByContract`. -/
structure ListOutcomes where
  /-- Failure of `r.db.Query`. -/
  queryErr : Option Nat
  /-- Failure of `rows.Scan` on the row with the given index. -/
  scanErr : Nat → Option Nat
  /-- An error that ends the iteration after the given number of rows, reported by
  `rows.Err()`. -/
  rowsErr : Option (Nat × Nat)

/-- The outcomes of a listing in which no driver call fails. -/
def ListOutcomes.ok : ListOutcomes := ⟨none, fun _ => none, none⟩

/-- The loop `for rows.Next() { rows.Scan(...); slices = append(slices, s) }`. -/
def scanSlices (scanErr : Nat → Option Nat) :
    List TimeSlice → Nat → List TimeSlice → Except Error (List TimeSlice)
  | [], _, slices => .ok slices
  | s :: rest, i, slices =>
    match scanErr i with
    | some e => .error (.storeFailure e)
    | none => scanSlices scanErr rest (i + 1) (slices ++ [s])

/-- The Go method `GetTimeSlicesByContract`: the returned pair `([]TimeSlice, error)`. -/
def GetTimeSlicesByContract (db : Store) (o : ListOutcomes) (contractID : String) :
    List TimeSlice × Option Error :=
  match o.queryErr with
  | some e => ([], some (.storeFailure e))
  | none =>
    let result := orderByCreatedAtDesc (whereContract db contractID)
    match scanSlices o.scanErr (deliveredRows o.rowsErr result) 0 [] with
    | .error err => ([], some err)
    | .ok slices => (slices, o.rowsErr.map (fun ne => Error.storeFailure ne.2))

/-- The store states that sequentially executed `CreateTimeSlice` calls can produce
from the empty table, whatever the payloads and the outcomes of the driver calls. -/
inductive Reachable : Store → Prop where
  | empty : Reachable []
  | create (db : Store) (o : StoreOutcomes) (p : IncomingPayload) :
      Reachable db → Reachable (CreateTimeSlice db o p).2

/-- The calendar day (UTC) of an instant, as step 3 computes it. -/
def day (t : Time) : Time := t.Truncate (24 * Hour)

/-! ## Vocabulary of the statements -/

/-- The map that step 1 builds when no `Scan` fails: the `top_article_id` values
stored for the contract. -/
def knownIDs (db : Store) (contractID : String) : KnownMap :=
  fun id => decide (id ∈ selectTopArticleIDs db contractID)

/-- The invoice date of the most recently created row of the contract, if any. -/
def latestInvoiceDate (db : Store) (contractID : String) : Option Time :=
  ((orderByCreatedAtDesc (whereContract db contractID)).head?).map (fun r => r.InvoiceDate)

/-- The table after step 3 of a call in which no driver call fails. -/
def reconciled (db : Store) (p : IncomingPayload) : Store :=
  if invoiceDateDiffers (latestInvoiceDate db p.ContractID) p.InvoiceDate then
    updateInvoiceDate db p.InvoiceDate p.ContractID
  else db

/-- The row that step 4 inserts. -/
def newRow (db : Store) (o : StoreOutcomes) (p : IncomingPayload) : TimeSlice :=
  ⟨o.newID, p.ContractID, (highestNew p.ArticleIDs (knownIDs db p.ContractID)).1,
    p.ValidityTag, p.InvoiceDate, o.createdAt⟩

/-- No two rows of one contract carry the same `top_article_id`. -/
def UniqueArticleIDs (db : Store) : Prop :=
  db.Pairwise (fun a b => a.ContractID = b.ContractID → a.TopArticleID ≠ b.TopArticleID)

/-- All rows of one contract have their invoice date on the same calendar day. -/
def UniformInvoiceDay (db : Store) : Prop :=
  ∀ a ∈ db, ∀ b ∈ db, a.ContractID = b.ContractID → day a.InvoiceDate = day b.InvoiceDate

/-- What a call may do to a row that existed before it: only `invoice_date` can
change, and only for a row of the contract `contractID`. -/
def SameButInvoiceDate (contractID : String) (old new : TimeSlice) : Prop :=
  new.ID = old.ID ∧ new.ContractID = old.ContractID ∧ new.TopArticleID = old.TopArticleID ∧
  new.ValidityTag = old.ValidityTag ∧ new.CreatedAt = old.CreatedAt ∧
  (old.ContractID ≠ contractID → new = old)

/-- The table after a sequence of `CreateTimeSlice` calls with the same payload. -/
def repeatCreate (db : Store) (p : IncomingPayload) (os : List StoreOutcomes) : Store :=
  os.foldl (fun s o => (CreateTimeSlice s o p).2) db

/-! ## Concrete tables, payloads and the scenario of the specification -/

/-- A table with one row of contract "C1": article 9, dated 2024-01-10. -/
def storeC1 : Store := [⟨1, "C1", 9, "A", date_2024_01_10, ⟨100⟩⟩]

/-- A payload for "C1" whose only article ID is already stored in `storeC1`. -/
def payloadKnown : IncomingPayload := ⟨"C1", [9, 9], "A", date_2024_01_10⟩

/-- A payload for "C1" with a new article ID and an invoice date on another day. -/
def payloadOtherDay : IncomingPayload := ⟨"C1", [12], "A", date_2024_02_01⟩

/-- The first payload of the scenario. -/
def scenarioPayload1 : IncomingPayload := ⟨"C1", [5, 3, 9], "A", date_2024_01_10⟩

/-- The first call of the scenario, on a table `db`: what it returns and the table it
leaves. -/
def scenarioCall1 (db : Store) (o1 : StoreOutcomes) : (Int × Option Error) × Store :=
  CreateTimeSlice db o1 scenarioPayload1

/-- The second call of the scenario, on the table the first one left. -/
def scenarioCall2 (db : Store) (o1 o2 : StoreOutcomes) : (Int × Option Error) × Store :=
  CreateTimeSlice (scenarioCall1 db o1).2 o2 payloadKnown

/-- The third call of the scenario, on the table the second one left. -/
def scenarioCall3 (db : Store) (o1 o2 o3 : StoreOutcomes) : (Int × Option Error) × Store :=
  CreateTimeSlice (scenarioCall2 db o1 o2).2 o3 payloadOtherDay

/-- The listing of "C1" after the three calls of the scenario. -/
def scenarioListing (db : Store) (o1 o2 o3 : StoreOutcomes) : List TimeSlice × Option Error :=
  GetTimeSlicesByContract (scenarioCall3 db o1 o2 o3).2 ListOutcomes.ok "C1"

/-- A table with two rows of another contract, "C2", one of them for article 9 and
one created later than every row of the scenario. -/
def storeC2 : Store :=
  [⟨10, "C2", 9, "B", date_2024_01_10, ⟨50⟩⟩, ⟨11, "C2", 12, "B", date_2024_01_10, ⟨900⟩⟩]

/-- The table with the two rows of "C1" that the scenario leaves when it starts
from the empty table. -/
def storeTwoRows : Store :=
  (scenarioCall3 [] (StoreOutcomes.ok 1 ⟨100⟩) (StoreOutcomes.ok 2 ⟨200⟩)
    (StoreOutcomes.ok 3 ⟨300⟩)).2

/-- A payload for "C1" with two stored article IDs and two new ones. -/
def payloadMixed : IncomingPayload := ⟨"C1", [12, 15, 9, 14], "A", date_2024_02_01⟩

/-- Outcomes in which the iteration of step 1 ends on an error before the first row
and the next call on the transaction fails with code 1. -/
def streamCut : StoreOutcomes :=
  ⟨none, none, some (0, 1), fun _ => none, none, none, none, 2, ⟨200⟩, none⟩

/-- Outcomes in which the INSERT assigns the identifier 7 and only the commit fails. -/
def commitFails : StoreOutcomes :=
  ⟨none, none, none, fun _ => none, none, none, none, 7, ⟨100⟩, some 1⟩

/-! ### Loop invariant of `highestNew` -/

/-- What the pair `(max, found)` says about the part `seen` of the input already scanned. -/
def ScanInv (known : KnownMap) (seen : List Int) (st : Int × Bool) : Prop :=
  (st.2 = false → st.1 = 0 ∧ ∀ x ∈ seen, known x = true) ∧
  (st.2 = true → st.1 ∈ seen ∧ known st.1 = false ∧
    ∀ x ∈ seen, known x = false → x ≤ st.1)

theorem scanInv_step (known : KnownMap) (seen : List Int) (st : Int × Bool) (id : Int)
    (h : ScanInv known seen st) :
    ScanInv known (seen ++ [id]) (highestNewStep known st id) := by
  obtain ⟨m, f⟩ := st
  obtain ⟨h0, h1⟩ := h
  unfold highestNewStep
  cases hk : known id <;> cases f <;> simp only [ScanInv] at * <;> simp at *
  · refine ⟨hk, ?_⟩
    intro x hx hxk
    rcases hx with hx | hx
    · rw [h0.2 x hx] at hxk; cases hxk
    · omega
  · by_cases hgt : m < id
    · simp [hgt]
      refine ⟨hk, ?_⟩
      intro x hx hxk
      rcases hx with hx | hx
      · have := h1.2.2 x hx hxk; omega
      · omega
    · simp [hgt]
      refine ⟨Or.inl h1.1, h1.2.1, ?_⟩
      intro x hx hxk
      rcases hx with hx | hx
      · exact h1.2.2 x hx hxk
      · omega
  · refine ⟨h0.1, ?_⟩
    intro x hx
    rcases hx with hx | hx
    · exact h0.2 x hx
    · rw [hx]; exact hk
  · refine ⟨Or.inl h1.1, h1.2.1, ?_⟩
    intro x hx hxk
    rcases hx with hx | hx
    · exact h1.2.2 x hx hxk
    · rw [hx, hk] at hxk; cases hxk

theorem scanInv_foldl (known : KnownMap) (ids seen : List Int) (st : Int × Bool)
    (h : ScanInv known seen st) :
    ScanInv known (seen ++ ids) (ids.foldl (highestNewStep known) st) := by
  induction ids generalizing seen st with
  | nil => simpa using h
  | cons id rest ih =>
    have := ih (seen ++ [id]) _ (scanInv_step known seen st id h)
    simpa using this

theorem highestNew_inv (ids : List Int) (known : KnownMap) :
    ScanInv known ids (highestNew ids known) := by
  have := scanInv_foldl known ids [] (0, false) (by simp [ScanInv])
  simpa [highestNew] using this

/-- A pair satisfying the invariant on the whole input is determined by the set of
values of the input. -/
theorem scanInv_unique (known : KnownMap) (l₁ l₂ : List Int) (s₁ s₂ : Int × Bool)
    (hmem : ∀ x, x ∈ l₁ ↔ x ∈ l₂)
    (h₁ : ScanInv known l₁ s₁) (h₂ : ScanInv known l₂ s₂) : s₁ = s₂ := by
  obtain ⟨m₁, f₁⟩ := s₁
  obtain ⟨m₂, f₂⟩ := s₂
  obtain ⟨a0, a1⟩ := h₁
  obtain ⟨b0, b1⟩ := h₂
  cases f₁ <;> cases f₂ <;> simp at *
  · rw [a0.1, b0.1]
  · have := a0.2 m₂ ((hmem m₂).2 b1.1)
    rw [b1.2.1] at this; cases this
  · have := b0.2 m₁ ((hmem m₁).1 a1.1)
    rw [a1.2.1] at this; cases this
  · have h1 := a1.2.2 m₂ ((hmem m₂).2 b1.1) b1.2.1
    have h2 := b1.2.2 m₁ ((hmem m₁).1 a1.1) a1.2.1
    omega

theorem highestNewReference_inv (ids : List Int) (known : KnownMap) :
    ScanInv known ids (highestNewReference ids known) := by
  unfold highestNewReference
  cases hmax : (ids.filter (fun id => !known id)).max? with
  | none =>
    rw [List.max?_eq_none_iff] at hmax
    refine ⟨fun _ => ⟨rfl, ?_⟩, fun h => by cases h⟩
    intro x hx
    by_contra hk
    have : x ∈ ids.filter (fun id => !known id) := by
      simp [List.mem_filter, hx, hk]
    rw [hmax] at this
    cases this
  | some m =>
    haveI hanti : Std.Antisymm (fun (x1 x2 : Int) => x1 ≤ x2) :=
      ⟨fun h1 h2 => le_antisymm h1 h2⟩
    have hiff := (List.max?_eq_some_iff
      (fun (a : Int) => le_refl a)
      (fun (a b : Int) => by rcases le_total a b with h | h <;> simp [h])
      (fun (a b c : Int) => by simp)).1 hmax
    obtain ⟨hm, hle⟩ := hiff
    simp [List.mem_filter] at hm hle
    refine ⟨fun h => (by cases h), fun _ => ?_⟩
    exact ⟨hm.1, hm.2, fun x hx hxk => hle x hx hxk⟩

/-! ### The steps of `CreateTimeSlice` -/

theorem scanKnown_ok (scanErr : Nat → Option Nat) (ids : List Int) (i : Nat)
    (known k : KnownMap) (h : scanKnown scanErr ids i known = .ok k) :
    k = fun x => known x || decide (x ∈ ids) := by
  induction ids generalizing i known with
  | nil =>
    simp [scanKnown] at h
    subst h
    funext x
    simp
  | cons id rest ih =>
    unfold scanKnown at h
    split at h
    · cases h
    · rw [ih _ _ h]
      funext x
      by_cases hx : x = id <;> simp [KnownMap.set, hx]

theorem scanKnown_error (scanErr : Nat → Option Nat) (ids : List Int) (i : Nat)
    (known : KnownMap) (err : Error) (h : scanKnown scanErr ids i known = .error err) :
    ∃ c, err = .storeFailure c := by
  induction ids generalizing i known with
  | nil => simp [scanKnown] at h
  | cons id rest ih =>
    unfold scanKnown at h
    split at h
    · cases h; exact ⟨_, rfl⟩
    · exact ih _ _ h

theorem scanKnown_total (scanErr : Nat → Option Nat) (hs : ∀ i, scanErr i = none)
    (ids : List Int) (i : Nat) (known : KnownMap) :
    ∃ k, scanKnown scanErr ids i known = .ok k := by
  induction ids generalizing i known with
  | nil => exact ⟨known, rfl⟩
  | cons id rest ih =>
    unfold scanKnown
    rw [hs i]
    exact ih _ _

theorem scanKnown_empty_ok (scanErr : Nat → Option Nat) (db : Store) (contractID : String)
    (k : KnownMap)
    (h : scanKnown scanErr (selectTopArticleIDs db contractID) 0 KnownMap.empty = .ok k) :
    k = knownIDs db contractID := by
  rw [scanKnown_ok _ _ _ _ _ h]
  funext x
  simp [KnownMap.empty, knownIDs]

theorem scanLatest_ok (latestErr : Option Nat) (db : Store) (contractID : String) (tmp : Time)
    (h : scanLatestInvoiceDate latestErr db contractID = .ok tmp) :
    latestInvoiceDate db contractID = some tmp := by
  unfold scanLatestInvoiceDate at h
  split at h
  · cases h
  · split at h
    · rename_i r hr
      cases h
      simp [latestInvoiceDate, hr]
    · cases h

theorem scanLatest_noRows (latestErr : Option Nat) (db : Store) (contractID : String)
    (h : scanLatestInvoiceDate latestErr db contractID = .error .ErrNoRows) :
    latestInvoiceDate db contractID = none := by
  unfold scanLatestInvoiceDate at h
  split at h
  · cases h
  · split at h
    · cases h
    · rename_i hr
      simp [latestInvoiceDate, hr]

theorem writeTimeSlice_outcome (db : Store) (o : StoreOutcomes) (p : IncomingPayload)
    (top : Int) (existing : Option Time) :
    ((writeTimeSlice db o p top existing).2 = db ∧
      (writeTimeSlice db o p top existing).1.2 ≠ none) ∨
    writeTimeSlice db o p top existing =
      ((o.newID, none),
        (if invoiceDateDiffers existing p.InvoiceDate then
          updateInvoiceDate db p.InvoiceDate p.ContractID else db) ++
        [⟨o.newID, p.ContractID, top, p.ValidityTag, p.InvoiceDate, o.createdAt⟩]) := by
  unfold writeTimeSlice
  cases hd : invoiceDateDiffers existing p.InvoiceDate <;>
    cases he : o.execErr <;> cases hi : o.insertErr <;> cases hc : o.commitErr <;>
    simp [insertTimeSlice]

/-- A call whose iteration over the known IDs an error has ended returns the
identifier 0 with `ErrAllArticlesKnown` or a store error, and leaves the table as it
was. -/
theorem CreateTimeSlice_cut (db : Store) (o : StoreOutcomes) (p : IncomingPayload)
    (n e : Nat) (hr : o.rowsErr = some (n, e)) :
    (CreateTimeSlice db o p).2 = db ∧ (CreateTimeSlice db o p).1.1 = 0 ∧
    ((CreateTimeSlice db o p).1.2 = some .ErrAllArticlesKnown ∨
      ∃ c, (CreateTimeSlice db o p).1.2 = some (.storeFailure c)) := by
  unfold CreateTimeSlice
  simp only [StoreOutcomes.latestFailure, hr]
  split
  · simp
  · split
    · simp
    · split
      · rename_i err herr
        obtain ⟨c, hc⟩ := scanKnown_error _ _ _ _ _ herr
        subst hc
        simp
      · rename_i known hk
        cases hf : (highestNew p.ArticleIDs known).2
        · simp [hf]
        · simp [hf, scanLatestInvoiceDate]

/-- Every call either leaves the table as it was and returns an error, or returns the
assigned identifier without error and appends the new row to the reconciled table. -/
theorem CreateTimeSlice_outcome (db : Store) (o : StoreOutcomes) (p : IncomingPayload) :
    ((CreateTimeSlice db o p).2 = db ∧ (CreateTimeSlice db o p).1.2 ≠ none) ∨
    ((highestNew p.ArticleIDs (knownIDs db p.ContractID)).2 = true ∧
      CreateTimeSlice db o p = ((o.newID, none), reconciled db p ++ [newRow db o p])) := by
  cases hr : o.rowsErr with
  | some ne =>
    obtain ⟨n, e⟩ := ne
    obtain ⟨h1, _, h3⟩ := CreateTimeSlice_cut db o p n e hr
    left
    refine ⟨h1, ?_⟩
    rcases h3 with h3 | ⟨c, h3⟩ <;> rw [h3] <;> simp
  | none =>
    unfold CreateTimeSlice
    simp only [StoreOutcomes.latestFailure, deliveredRows, hr]
    split
    · left; simp
    · split
      · left; simp
      · split
        · left; simp
        · rename_i known hk
          have hk := scanKnown_empty_ok _ _ _ _ hk
          subst hk
          cases hf : (highestNew p.ArticleIDs (knownIDs db p.ContractID)).2
          · left; simp [hf]
          · simp only [hf, Bool.not_true, Bool.false_eq_true, if_false]
            split
            · rename_i tmp ht
              have hl := scanLatest_ok _ _ _ _ ht
              rcases writeTimeSlice_outcome db o p
                (highestNew p.ArticleIDs (knownIDs db p.ContractID)).1 (some tmp) with h | h
              · left; exact h
              · right
                refine ⟨trivial, ?_⟩
                rw [h]
                simp [reconciled, newRow, hl]
            · rename_i err he
              by_cases hne : err = .ErrNoRows
              · subst hne
                have hl := scanLatest_noRows _ _ _ he
                simp only [ne_eq, not_true_eq_false, if_false]
                rcases writeTimeSlice_outcome db o p
                  (highestNew p.ArticleIDs (knownIDs db p.ContractID)).1 none with h | h
                · left; exact h
                · right
                  refine ⟨trivial, ?_⟩
                  rw [h]
                  simp [reconciled, newRow, hl]
              · left; simp [hne]

/-- A call in which no driver call fails is rejected when `highestNew` finds no new
article, and otherwise appends the new row to the reconciled table. -/
theorem CreateTimeSlice_ok (db : Store) (id : Int) (t : Time) (p : IncomingPayload) :
    CreateTimeSlice db (StoreOutcomes.ok id t) p =
      if (highestNew p.ArticleIDs (knownIDs db p.ContractID)).2 = true then
        ((id, none), reconciled db p ++ [newRow db (StoreOutcomes.ok id t) p])
      else ((0, some .ErrAllArticlesKnown), db) := by
  obtain ⟨k, hk⟩ := scanKnown_total (fun _ => none) (fun _ => rfl)
    (selectTopArticleIDs db p.ContractID) 0 KnownMap.empty
  have hk2 := scanKnown_empty_ok _ _ _ _ hk
  subst hk2
  unfold CreateTimeSlice
  simp only [StoreOutcomes.ok, StoreOutcomes.latestFailure, deliveredRows, hk]
  cases hf : (highestNew p.ArticleIDs (knownIDs db p.ContractID)).2
  · simp
  · simp only [Bool.not_true, Bool.false_eq_true, if_false, if_true]
    unfold scanLatestInvoiceDate reconciled latestInvoiceDate
    cases hh : (orderByCreatedAtDesc (whereContract db p.ContractID)).head? with
    | none => simp [writeTimeSlice, insertTimeSlice, newRow, StoreOutcomes.ok, invoiceDateDiffers]
    | some r =>
      cases hd : invoiceDateDiffers (some r.InvoiceDate) p.InvoiceDate <;>
        simp [writeTimeSlice, insertTimeSlice, newRow, StoreOutcomes.ok, hd]

theorem knownIDs_false_iff (db : Store) (contractID : String) (id : Int) :
    knownIDs db contractID id = false ↔
      ∀ r ∈ db, r.ContractID = contractID → r.TopArticleID ≠ id := by
  simp [knownIDs, selectTopArticleIDs, whereContract]

theorem knownIDs_true_iff (db : Store) (contractID : String) (id : Int) :
    knownIDs db contractID id = true ↔
      ∃ r ∈ db, r.ContractID = contractID ∧ r.TopArticleID = id := by
  simp [knownIDs, selectTopArticleIDs, whereContract, and_assoc]

/-! ## The selection function -/

theorem highestNew_not_found_iff (ids : List Int) (known : KnownMap) :
    (highestNew ids known).2 = false ↔ ∀ x ∈ ids, known x = true := by
  have hinv := highestNew_inv ids known
  constructor
  · intro hf
    exact (hinv.1 hf).2
  · intro hall
    cases hf : (highestNew ids known).2
    · rfl
    · have h := hinv.2 hf
      have := hall _ h.1
      rw [h.2.1] at this; cases this

/-- C1: `highestNew` equals the reference definition. Whenever some candidate is not a
member of `known` it returns `found = true` with a candidate that is not a member of
`known` and is at least every other such candidate, and it returns `found = false`
exactly when every candidate is a member of `known`. -/
theorem highestNew_eq_reference (ids : List Int) (known : KnownMap) :
    highestNew ids known = highestNewReference ids known ∧
    ((∃ x ∈ ids, known x = false) →
      (highestNew ids known).2 = true ∧ (highestNew ids known).1 ∈ ids ∧
      known (highestNew ids known).1 = false ∧
      ∀ x ∈ ids, known x = false → x ≤ (highestNew ids known).1) ∧
    ((highestNew ids known).2 = false ↔ ∀ x ∈ ids, known x = true) := by
  have hinv := highestNew_inv ids known
  refine ⟨scanInv_unique known ids ids _ _ (fun _ => Iff.rfl) hinv
    (highestNewReference_inv ids known), ?_, ?_⟩
  · rintro ⟨x, hx, hxk⟩
    cases hf : (highestNew ids known).2
    · have := (hinv.1 hf).2 x hx
      rw [hxk] at this; cases this
    · exact ⟨rfl, hinv.2 hf⟩
  · exact highestNew_not_found_iff ids known

/-- C2: two candidate sequences with the same set of values (a reordering, or one with
repeated elements) give the same `(value, found)` pair, for every known set. -/
theorem highestNew_same_values (known : KnownMap) (ids1 ids2 : List Int)
    (h : ∀ x, x ∈ ids1 ↔ x ∈ ids2) :
    highestNew ids1 known = highestNew ids2 known :=
  scanInv_unique known ids1 ids2 _ _ h (highestNew_inv ids1 known) (highestNew_inv ids2 known)

theorem highestNew_same_values_witness :
    (∀ x : Int, x ∈ [5, 3, 9] ↔ x ∈ [9, 5, 9, 3, 5]) ∧
    highestNew [5, 3, 9] (KnownMap.empty.set 9) =
      highestNew [9, 5, 9, 3, 5] (KnownMap.empty.set 9) :=
  ⟨by intro x; simp; tauto,
    highestNew_same_values (KnownMap.empty.set 9) [5, 3, 9] [9, 5, 9, 3, 5]
      (by intro x; simp; tauto)⟩

/-! ## Rejection -/

theorem repeatCreate_unchanged (db : Store) (p : IncomingPayload)
    (h : ∀ o, (CreateTimeSlice db o p).2 = db) (os : List StoreOutcomes) :
    repeatCreate db p os = db := by
  induction os with
  | nil => rfl
  | cons o rest ih =>
    unfold repeatCreate at ih ⊢
    rw [List.foldl_cons, h o]
    exact ih

/-- C3: when every article ID of the payload is stored as `top_article_id` of a row of
the payload's contract, a call leaves the table unchanged and returns the identifier 0
with an error, either `ErrAllArticlesKnown` or a store error, whatever the driver calls
do and however often the call is repeated; when `Begin` and the read of the known IDs
(the query, the iteration over its rows, every `Scan`) do not fail, the call returns
`ErrAllArticlesKnown`. -/
theorem CreateTimeSlice_all_known (db : Store) (p : IncomingPayload)
    (hall : ∀ id ∈ p.ArticleIDs,
      ∃ r ∈ db, r.ContractID = p.ContractID ∧ r.TopArticleID = id) :
    (∀ o : StoreOutcomes,
      (CreateTimeSlice db o p).2 = db ∧
      (CreateTimeSlice db o p).1.1 = 0 ∧
      ((CreateTimeSlice db o p).1.2 = some .ErrAllArticlesKnown ∨
        ∃ c, (CreateTimeSlice db o p).1.2 = some (.storeFailure c)) ∧
      (o.beginErr = none → o.queryErr = none → o.rowsErr = none →
        (∀ i, o.scanErr i = none) →
        (CreateTimeSlice db o p).1 = (0, some .ErrAllArticlesKnown))) ∧
    (∀ os : List StoreOutcomes, repeatCreate db p os = db) := by
  have hnot : (highestNew p.ArticleIDs (knownIDs db p.ContractID)).2 = false := by
    rw [highestNew_not_found_iff]
    intro x hx
    exact (knownIDs_true_iff _ _ _).2 (hall x hx)
  have hone : ∀ o : StoreOutcomes,
      (CreateTimeSlice db o p).2 = db ∧
      (CreateTimeSlice db o p).1.1 = 0 ∧
      ((CreateTimeSlice db o p).1.2 = some .ErrAllArticlesKnown ∨
        ∃ c, (CreateTimeSlice db o p).1.2 = some (.storeFailure c)) ∧
      (o.beginErr = none → o.queryErr = none → o.rowsErr = none →
        (∀ i, o.scanErr i = none) →
        (CreateTimeSlice db o p).1 = (0, some .ErrAllArticlesKnown)) := by
    intro o
    cases hr : o.rowsErr with
    | some ne =>
      obtain ⟨n, e⟩ := ne
      obtain ⟨h1, h2, h3⟩ := CreateTimeSlice_cut db o p n e hr
      exact ⟨h1, h2, h3, fun _ _ h => by cases h⟩
    | none =>
      unfold CreateTimeSlice
      simp only [StoreOutcomes.latestFailure, deliveredRows, hr]
      split
      · rename_i e he
        simp [he]
      · split
        · rename_i e he
          simp [he]
        · split
          · rename_i err he
            obtain ⟨c, hc⟩ := scanKnown_error _ _ _ _ _ he
            subst hc
            refine ⟨rfl, rfl, Or.inr ⟨c, rfl⟩, ?_⟩
            intro _ _ _ hs
            obtain ⟨k, hk⟩ := scanKnown_total o.scanErr hs
              (selectTopArticleIDs db p.ContractID) 0 KnownMap.empty
            rw [hk] at he
            cases he
          · rename_i known hk
            have hk := scanKnown_empty_ok _ _ _ _ hk
            subst hk
            simp [hnot]
  exact ⟨hone, repeatCreate_unchanged db p (fun o => (hone o).1)⟩

theorem CreateTimeSlice_all_known_witness :
    (∀ id ∈ payloadKnown.ArticleIDs,
      ∃ r ∈ storeC1, r.ContractID = payloadKnown.ContractID ∧ r.TopArticleID = id) ∧
    (CreateTimeSlice storeC1 (StoreOutcomes.ok 2 ⟨200⟩) payloadKnown).1 =
      (0, some .ErrAllArticlesKnown) ∧
    (CreateTimeSlice storeC1 streamCut payloadKnown).2 = storeC1 ∧
    CreateTimeSlice storeC1 streamCut payloadKnown = ((0, some (.storeFailure 1)), storeC1) ∧
    repeatCreate storeC1 payloadKnown [StoreOutcomes.ok 2 ⟨200⟩, streamCut, commitFails] =
      storeC1 :=
  have hyp : ∀ id ∈ payloadKnown.ArticleIDs,
      ∃ r ∈ storeC1, r.ContractID = payloadKnown.ContractID ∧ r.TopArticleID = id := by
    decide
  have thm := CreateTimeSlice_all_known storeC1 payloadKnown hyp
  ⟨hyp, (thm.1 (StoreOutcomes.ok 2 ⟨200⟩)).2.2.2 rfl rfl rfl (fun _ => rfl),
    (thm.1 streamCut).1, by decide, thm.2 _⟩

/-! ## Invoice-date reconciliation -/

theorem time_eq_iff (a b : Time) : a.nanos = b.nanos ↔ a = b := by
  cases a; cases b; simp

theorem invoiceDateDiffers_some (t d : Time) :
    invoiceDateDiffers (some t) d = true ↔ day t ≠ day d := by
  simp [invoiceDateDiffers, Time.Equal, day, time_eq_iff]

theorem latestInvoiceDate_mem (db : Store) (contractID : String) (t : Time)
    (h : latestInvoiceDate db contractID = some t) :
    ∃ r ∈ whereContract db contractID, r.InvoiceDate = t := by
  unfold latestInvoiceDate at h
  cases hh : (orderByCreatedAtDesc (whereContract db contractID)).head? with
  | none => simp [hh] at h
  | some r =>
    simp [hh] at h
    refine ⟨r, ?_, h⟩
    have hmem : r ∈ orderByCreatedAtDesc (whereContract db contractID) :=
      List.mem_of_mem_head? hh
    exact (List.perm_insertionSort _ _).mem_iff.1 hmem

theorem latestInvoiceDate_none (db : Store) (contractID : String)
    (h : latestInvoiceDate db contractID = none) :
    whereContract db contractID = [] := by
  unfold latestInvoiceDate at h
  simp at h
  have hperm := List.perm_insertionSort (fun a b : TimeSlice => b.CreatedAt.nanos ≤ a.CreatedAt.nanos)
    (whereContract db contractID)
  unfold orderByCreatedAtDesc at h
  rw [h] at hperm
  exact (List.Perm.nil_eq hperm).symm

theorem mem_whereContract (db : Store) (contractID : String) (r : TimeSlice) :
    r ∈ whereContract db contractID ↔ r ∈ db ∧ r.ContractID = contractID := by
  simp [whereContract]

theorem whereContract_append (a b : Store) (contractID : String) :
    whereContract (a ++ b) contractID = whereContract a contractID ++ whereContract b contractID := by
  simp [whereContract]

theorem whereContract_update (db : Store) (d : Time) (c c' : String) :
    whereContract (updateInvoiceDate db d c) c' =
      (whereContract db c').map
        (fun r => if r.ContractID = c then { r with InvoiceDate := d } else r) := by
  unfold whereContract updateInvoiceDate
  rw [List.filter_map]
  congr 1
  apply List.filter_congr
  intro r _
  by_cases h : r.ContractID = c <;> simp [h]

theorem whereContract_newRow (db : Store) (o : StoreOutcomes) (p : IncomingPayload) :
    whereContract [newRow db o p] p.ContractID = [newRow db o p] := by
  simp [whereContract, newRow]

/-- C4: take a contract with at least one row, all rows dated on the day `D1`, and a
call that succeeds. When the day of the incoming invoice date differs from `D1`, the
table afterwards is the old one with the invoice date of every row of the contract
overwritten, plus the new row: the contract has one row more and all its rows carry the
incoming date. When the incoming date lies on `D1`, the table afterwards is the old
one, untouched, plus the new row, which carries the incoming date. -/
theorem CreateTimeSlice_backfill (db : Store) (o : StoreOutcomes) (p : IncomingPayload)
    (D1 : Time)
    (hN : 1 ≤ (whereContract db p.ContractID).length)
    (hD : ∀ r ∈ whereContract db p.ContractID, day r.InvoiceDate = D1)
    (hok : (CreateTimeSlice db o p).1.2 = none) :
    (newRow db o p).ContractID = p.ContractID ∧
    (newRow db o p).InvoiceDate = p.InvoiceDate ∧
    (day p.InvoiceDate ≠ D1 →
      (CreateTimeSlice db o p).2 =
        updateInvoiceDate db p.InvoiceDate p.ContractID ++ [newRow db o p] ∧
      (whereContract (CreateTimeSlice db o p).2 p.ContractID).length =
        (whereContract db p.ContractID).length + 1 ∧
      ∀ r ∈ whereContract (CreateTimeSlice db o p).2 p.ContractID,
        r.InvoiceDate = p.InvoiceDate) ∧
    (day p.InvoiceDate = D1 → (CreateTimeSlice db o p).2 = db ++ [newRow db o p]) := by
  rcases CreateTimeSlice_outcome db o p with h | h
  · exact absurd hok h.2
  · obtain ⟨_, hres⟩ := h
    have hlatest : ∃ t, latestInvoiceDate db p.ContractID = some t ∧ day t = D1 := by
      cases hl : latestInvoiceDate db p.ContractID with
      | none =>
        have := latestInvoiceDate_none db p.ContractID hl
        rw [this] at hN
        simp at hN
      | some t =>
        obtain ⟨r, hr, hrt⟩ := latestInvoiceDate_mem db p.ContractID t hl
        exact ⟨t, rfl, by rw [← hrt]; exact hD r hr⟩
    obtain ⟨t, hl, ht⟩ := hlatest
    refine ⟨rfl, rfl, ?_, ?_⟩
    · intro hne
      have hdiff : invoiceDateDiffers (some t) p.InvoiceDate = true :=
        (invoiceDateDiffers_some t p.InvoiceDate).2 (by rw [ht]; exact fun h => hne h.symm)
      have hstore : (CreateTimeSlice db o p).2 =
          updateInvoiceDate db p.InvoiceDate p.ContractID ++ [newRow db o p] := by
        rw [hres]
        simp [reconciled, hl, hdiff]
      refine ⟨hstore, ?_, ?_⟩
      · rw [hstore, whereContract_append, whereContract_update, whereContract_newRow]
        simp
      · intro r hr
        rw [hstore, whereContract_append, whereContract_update, whereContract_newRow] at hr
        rcases List.mem_append.1 hr with hr | hr
        · obtain ⟨r0, hr0, hr0eq⟩ := List.mem_map.1 hr
          have hc := ((mem_whereContract _ _ _).1 hr0).2
          rw [if_pos hc] at hr0eq
          rw [← hr0eq]
        · rw [List.mem_singleton.1 hr]
          rfl
    · intro heq
      have hdiff : invoiceDateDiffers (some t) p.InvoiceDate = false := by
        cases hx : invoiceDateDiffers (some t) p.InvoiceDate
        · rfl
        · exact absurd (by rw [ht, heq]) ((invoiceDateDiffers_some t p.InvoiceDate).1 hx)
      rw [hres]
      simp [reconciled, hl, hdiff]

theorem CreateTimeSlice_backfill_witness :
    1 ≤ (whereContract storeC1 payloadOtherDay.ContractID).length ∧
    (∀ r ∈ whereContract storeC1 payloadOtherDay.ContractID,
      day r.InvoiceDate = date_2024_01_10) ∧
    (CreateTimeSlice storeC1 (StoreOutcomes.ok 3 ⟨300⟩) payloadOtherDay).1.2 = none ∧
    day payloadOtherDay.InvoiceDate ≠ date_2024_01_10 ∧
    ∀ r ∈ whereContract (CreateTimeSlice storeC1 (StoreOutcomes.ok 3 ⟨300⟩) payloadOtherDay).2
        payloadOtherDay.ContractID,
      r.InvoiceDate = payloadOtherDay.InvoiceDate :=
  have hN : 1 ≤ (whereContract storeC1 payloadOtherDay.ContractID).length := by decide
  have hD : ∀ r ∈ whereContract storeC1 payloadOtherDay.ContractID,
      day r.InvoiceDate = date_2024_01_10 := by decide
  have hok : (CreateTimeSlice storeC1 (StoreOutcomes.ok 3 ⟨300⟩) payloadOtherDay).1.2 = none := by
    decide
  have hne : day payloadOtherDay.InvoiceDate ≠ date_2024_01_10 := by decide
  ⟨hN, hD, hok, hne,
    ((CreateTimeSlice_backfill storeC1 (StoreOutcomes.ok 3 ⟨300⟩) payloadOtherDay
      date_2024_01_10 hN hD hok).2.2.1 hne).2.2⟩

/-! ## The returned identifier -/

theorem writeTimeSlice_id (db : Store) (o : StoreOutcomes) (p : IncomingPayload)
    (top : Int) (existing : Option Time) :
    (writeTimeSlice db o p top existing).1.2 = none ∨
    (writeTimeSlice db o p top existing).1.1 = 0 ∨
    (o.commitErr ≠ none ∧ (writeTimeSlice db o p top existing).1.1 = o.newID) := by
  unfold writeTimeSlice
  cases invoiceDateDiffers existing p.InvoiceDate <;>
    cases o.execErr <;> cases o.insertErr <;> cases o.commitErr <;> simp

/-- Every error return except the one of a failed commit carries the identifier 0;
after a failed commit the identifier assigned by the INSERT is returned. -/
theorem CreateTimeSlice_error_id (db : Store) (o : StoreOutcomes) (p : IncomingPayload) :
    (CreateTimeSlice db o p).1.2 = none ∨
    (CreateTimeSlice db o p).1.1 = 0 ∨
    (o.commitErr ≠ none ∧ (CreateTimeSlice db o p).1.1 = o.newID) := by
  unfold CreateTimeSlice
  split
  · simp
  · split
    · simp
    · split
      · simp
      · rename_i known hk
        cases hf : (highestNew p.ArticleIDs known).2
        · simp [hf]
        · simp only [hf, Bool.not_true, Bool.false_eq_true, if_false]
          split
          · exact writeTimeSlice_id _ _ _ _ _
          · split
            · simp
            · exact writeTimeSlice_id _ _ _ _ _

/-- C5, at the failing input: on the empty table, with an INSERT that assigns the
identifier 7 and a commit that fails, `CreateTimeSlice` returns the identifier 7
together with the error of the commit, and the table stays empty. -/
theorem CreateTimeSlice_commit_failure_returns_id :
    CreateTimeSlice [] commitFails scenarioPayload1 = ((7, some (.storeFailure 1)), []) := by
  decide

/-! ## The scenario -/

theorem updateInvoiceDate_of_empty (db : Store) (d : Time) (c : String)
    (h : whereContract db c = []) : updateInvoiceDate db d c = db := by
  unfold updateInvoiceDate
  have hno : ∀ r ∈ db, ¬ r.ContractID = c := by
    intro r hr hc
    have : r ∈ whereContract db c := (mem_whereContract db c r).2 ⟨hr, hc⟩
    rw [h] at this
    cases this
  calc db.map (fun r => if r.ContractID = c then { r with InvoiceDate := d } else r)
      = db.map id := List.map_congr_left (fun r hr => by simp [hno r hr])
    _ = db := List.map_id db

theorem knownIDs_of_empty (db : Store) (c : String) (h : whereContract db c = []) :
    knownIDs db c = KnownMap.empty := by
  funext x
  simp [knownIDs, selectTopArticleIDs, h, KnownMap.empty]

theorem knownIDs_append_one (db : Store) (r : TimeSlice) (h : whereContract db r.ContractID = []) :
    knownIDs (db ++ [r]) r.ContractID = KnownMap.empty.set r.TopArticleID := by
  funext x
  unfold knownIDs selectTopArticleIDs
  rw [whereContract_append, h]
  simp [whereContract, KnownMap.set, KnownMap.empty]

theorem scenarioCall1_eq (db : Store) (id1 : Int) (t1 : Time)
    (hempty : whereContract db "C1" = []) :
    scenarioCall1 db (StoreOutcomes.ok id1 t1) =
      ((id1, none), db ++ [⟨id1, "C1", 9, "A", date_2024_01_10, t1⟩]) := by
  have hk : knownIDs db "C1" = KnownMap.empty := knownIDs_of_empty db "C1" hempty
  have hl : latestInvoiceDate db "C1" = none := by
    simp [latestInvoiceDate, hempty, orderByCreatedAtDesc]
  have hsel : highestNew [5, 3, 9] KnownMap.empty = (9, true) := by decide
  unfold scenarioCall1
  rw [CreateTimeSlice_ok]
  simp [scenarioPayload1, hk, hsel, reconciled, hl, invoiceDateDiffers, newRow,
    StoreOutcomes.ok]

theorem scenarioCall2_eq (db : Store) (id1 id2 : Int) (t1 t2 : Time)
    (hempty : whereContract db "C1" = []) :
    scenarioCall2 db (StoreOutcomes.ok id1 t1) (StoreOutcomes.ok id2 t2) =
      ((0, some .ErrAllArticlesKnown), db ++ [⟨id1, "C1", 9, "A", date_2024_01_10, t1⟩]) := by
  have hk := knownIDs_append_one db ⟨id1, "C1", 9, "A", date_2024_01_10, t1⟩ hempty
  have hsel : highestNew [9, 9] (KnownMap.empty.set 9) = (0, false) := by decide
  unfold scenarioCall2
  rw [scenarioCall1_eq db id1 t1 hempty, CreateTimeSlice_ok]
  simp only [payloadKnown] at hk ⊢
  rw [hk, hsel]
  simp

theorem scenarioCall3_eq (db : Store) (id1 id2 id3 : Int) (t1 t2 t3 : Time)
    (hempty : whereContract db "C1" = []) :
    scenarioCall3 db (StoreOutcomes.ok id1 t1) (StoreOutcomes.ok id2 t2)
        (StoreOutcomes.ok id3 t3) =
      ((id3, none),
        db ++ [⟨id1, "C1", 9, "A", date_2024_02_01, t1⟩,
          ⟨id3, "C1", 12, "A", date_2024_02_01, t3⟩]) := by
  have hk := knownIDs_append_one db ⟨id1, "C1", 9, "A", date_2024_01_10, t1⟩ hempty
  have hsel : highestNew [12] (KnownMap.empty.set 9) = (12, true) := by decide
  have hd : invoiceDateDiffers (some date_2024_01_10) date_2024_02_01 = true := by decide
  have hl : latestInvoiceDate (db ++ [⟨id1, "C1", 9, "A", date_2024_01_10, t1⟩]) "C1" =
      some date_2024_01_10 := by
    unfold latestInvoiceDate
    rw [whereContract_append, hempty]
    simp [whereContract, orderByCreatedAtDesc]
  have hu : updateInvoiceDate (db ++ [⟨id1, "C1", 9, "A", date_2024_01_10, t1⟩])
      date_2024_02_01 "C1" = db ++ [⟨id1, "C1", 9, "A", date_2024_02_01, t1⟩] := by
    have := updateInvoiceDate_of_empty db date_2024_02_01 "C1" hempty
    unfold updateInvoiceDate at this ⊢
    rw [List.map_append, this]
    simp
  unfold scenarioCall3
  rw [scenarioCall2_eq db id1 id2 t1 t2 hempty, CreateTimeSlice_ok]
  simp only [payloadOtherDay] at hk ⊢
  rw [hk, hsel]
  simp [reconciled, hl, hd, hu, newRow, StoreOutcomes.ok, hk, hsel]

/-- C6, as the code behaves: start from any table without rows of "C1", let no driver
call fail and let the row of the third call get a later `created_at` than the row of
the first. Then the first call succeeds and stores article 9, the second is rejected
with `ErrAllArticlesKnown` and changes nothing, the third succeeds, stores article 12
and sets the invoice date of the first row to 2024-02-01, and the listing of "C1"
returns exactly two rows, article 12 first and article 9 second (newest first), both
with invoice date 2024-02-01. -/
theorem scenario_listing_newest_first (db : Store) (id1 id2 id3 : Int) (t1 t2 t3 : Time)
    (hempty : whereContract db "C1" = [])
    (h13 : t1.nanos < t3.nanos) :
    scenarioCall1 db (StoreOutcomes.ok id1 t1) =
      ((id1, none), db ++ [⟨id1, "C1", 9, "A", date_2024_01_10, t1⟩]) ∧
    scenarioCall2 db (StoreOutcomes.ok id1 t1) (StoreOutcomes.ok id2 t2) =
      ((0, some .ErrAllArticlesKnown), db ++ [⟨id1, "C1", 9, "A", date_2024_01_10, t1⟩]) ∧
    scenarioCall3 db (StoreOutcomes.ok id1 t1) (StoreOutcomes.ok id2 t2)
        (StoreOutcomes.ok id3 t3) =
      ((id3, none),
        db ++ [⟨id1, "C1", 9, "A", date_2024_02_01, t1⟩,
          ⟨id3, "C1", 12, "A", date_2024_02_01, t3⟩]) ∧
    scenarioListing db (StoreOutcomes.ok id1 t1) (StoreOutcomes.ok id2 t2)
        (StoreOutcomes.ok id3 t3) =
      ([⟨id3, "C1", 12, "A", date_2024_02_01, t3⟩, ⟨id1, "C1", 9, "A", date_2024_02_01, t1⟩],
        none) := by
  refine ⟨scenarioCall1_eq db id1 t1 hempty, scenarioCall2_eq db id1 id2 t1 t2 hempty,
    scenarioCall3_eq db id1 id2 id3 t1 t2 t3 hempty, ?_⟩
  have hnot : ¬ t3.nanos ≤ t1.nanos := by omega
  unfold scenarioListing GetTimeSlicesByContract
  rw [scenarioCall3_eq db id1 id2 id3 t1 t2 t3 hempty]
  simp only [whereContract_append, hempty]
  simp [ListOutcomes.ok, deliveredRows, whereContract, orderByCreatedAtDesc,
    List.insertionSort, List.orderedInsert, hnot, scanSlices]

theorem scenario_listing_newest_first_witness :
    whereContract storeC2 "C1" = [] ∧
    (⟨100⟩ : Time).nanos < (⟨300⟩ : Time).nanos ∧
    (scenarioCall3 storeC2 (StoreOutcomes.ok 1 ⟨100⟩) (StoreOutcomes.ok 2 ⟨200⟩)
        (StoreOutcomes.ok 3 ⟨300⟩)).2 =
      storeC2 ++ [⟨1, "C1", 9, "A", date_2024_02_01, ⟨100⟩⟩,
        ⟨3, "C1", 12, "A", date_2024_02_01, ⟨300⟩⟩] ∧
    scenarioListing storeC2 (StoreOutcomes.ok 1 ⟨100⟩) (StoreOutcomes.ok 2 ⟨200⟩)
        (StoreOutcomes.ok 3 ⟨300⟩) =
      ([⟨3, "C1", 12, "A", date_2024_02_01, ⟨300⟩⟩, ⟨1, "C1", 9, "A", date_2024_02_01, ⟨100⟩⟩],
        none) :=
  have thm := scenario_listing_newest_first storeC2 1 2 3 ⟨100⟩ ⟨200⟩ ⟨300⟩
    (by decide) (by decide)
  ⟨by decide, by decide, congrArg Prod.snd thm.2.2.1, thm.2.2.2⟩

/-- C6, as stated, fails: from the empty table, with identifiers 1, 2, 3 and creation
timestamps 100 < 200 < 300 assigned in the order of the calls, the listing does not
return the articles in the order 9, 12. It returns them in the order 12, 9. -/
theorem scenario_listing_order_counterexample :
    (scenarioListing [] (StoreOutcomes.ok 1 ⟨100⟩) (StoreOutcomes.ok 2 ⟨200⟩)
        (StoreOutcomes.ok 3 ⟨300⟩)).1.map (fun r => r.TopArticleID) ≠ [9, 12] ∧
    (scenarioListing [] (StoreOutcomes.ok 1 ⟨100⟩) (StoreOutcomes.ok 2 ⟨200⟩)
        (StoreOutcomes.ok 3 ⟨300⟩)).1.map (fun r => r.TopArticleID) = [12, 9] := by
  decide

/-! ## Frame and invariants -/

/-- The function the UPDATE applies to every row. -/
theorem updateRow_same (d : Time) (c : String) (r : TimeSlice) :
    SameButInvoiceDate c r (if r.ContractID = c then { r with InvoiceDate := d } else r) := by
  by_cases h : r.ContractID = c
  · rw [if_pos h]
    exact ⟨rfl, rfl, rfl, rfl, rfl, fun hne => absurd h hne⟩
  · rw [if_neg h]
    exact ⟨rfl, rfl, rfl, rfl, rfl, fun _ => rfl⟩

theorem sameButInvoiceDate_refl (c : String) (r : TimeSlice) : SameButInvoiceDate c r r :=
  ⟨rfl, rfl, rfl, rfl, rfl, fun _ => rfl⟩

theorem reconciled_forall₂ (db : Store) (p : IncomingPayload) :
    List.Forall₂ (SameButInvoiceDate p.ContractID) db (reconciled db p) := by
  unfold reconciled
  split
  · unfold updateInvoiceDate
    rw [List.forall₂_map_right_iff, List.forall₂_same]
    intro r _
    exact updateRow_same _ _ r
  · rw [List.forall₂_same]
    intro r _
    exact sameButInvoiceDate_refl _ r

theorem mem_reconciled (db : Store) (p : IncomingPayload) (a : TimeSlice)
    (h : a ∈ reconciled db p) :
    ∃ r ∈ db, SameButInvoiceDate p.ContractID r a ∧
      (a = r ∨ (a.InvoiceDate = p.InvoiceDate ∧
        invoiceDateDiffers (latestInvoiceDate db p.ContractID) p.InvoiceDate = true)) := by
  unfold reconciled at h
  split at h
  · rename_i hd
    unfold updateInvoiceDate at h
    obtain ⟨r, hr, rfl⟩ := List.mem_map.1 h
    refine ⟨r, hr, updateRow_same _ _ r, ?_⟩
    by_cases hc : r.ContractID = p.ContractID
    · right
      rw [if_pos hc]
      exact ⟨rfl, hd⟩
    · left
      rw [if_neg hc]
  · exact ⟨a, h, sameButInvoiceDate_refl _ a, Or.inl rfl⟩

theorem selectTopArticleIDs_reconciled (db : Store) (p : IncomingPayload) (c : String) :
    selectTopArticleIDs (reconciled db p) c = selectTopArticleIDs db c := by
  unfold reconciled
  split
  · unfold selectTopArticleIDs
    rw [whereContract_update, List.map_map]
    apply List.map_congr_left
    intro r _
    by_cases h : r.ContractID = p.ContractID <;> simp [h]
  · rfl

theorem selectTopArticleIDs_append (a b : Store) (c : String) :
    selectTopArticleIDs (a ++ b) c = selectTopArticleIDs a c ++ selectTopArticleIDs b c := by
  simp [selectTopArticleIDs, whereContract_append]

/-- The article chosen by a successful call is not stored for the contract. -/
theorem chosen_not_stored (db : Store) (p : IncomingPayload)
    (hf : (highestNew p.ArticleIDs (knownIDs db p.ContractID)).2 = true) :
    ∀ r ∈ db, r.ContractID = p.ContractID →
      r.TopArticleID ≠ (highestNew p.ArticleIDs (knownIDs db p.ContractID)).1 :=
  (knownIDs_false_iff _ _ _).1 ((highestNew_inv _ _).2 hf).2.1

theorem uniqueArticleIDs_step (db : Store) (o : StoreOutcomes) (p : IncomingPayload)
    (h : UniqueArticleIDs db) : UniqueArticleIDs (CreateTimeSlice db o p).2 := by
  rcases CreateTimeSlice_outcome db o p with hc | hc
  · rw [hc.1]; exact h
  · obtain ⟨hf, hres⟩ := hc
    rw [hres]
    unfold UniqueArticleIDs
    rw [List.pairwise_append]
    refine ⟨?_, List.pairwise_singleton _ _, ?_⟩
    · unfold reconciled
      split
      · unfold updateInvoiceDate
        rw [List.pairwise_map]
        refine List.Pairwise.imp ?_ h
        intro a b hab hcid
        have ha := updateRow_same p.InvoiceDate p.ContractID a
        have hb := updateRow_same p.InvoiceDate p.ContractID b
        rw [ha.2.2.1, hb.2.2.1]
        rw [ha.2.1, hb.2.1] at hcid
        exact hab hcid
      · exact h
    · intro a ha b hb hcid
      rw [List.mem_singleton.1 hb] at hcid ⊢
      obtain ⟨r, hr, hsame, _⟩ := mem_reconciled db p a ha
      rw [hsame.2.2.1]
      rw [hsame.2.1] at hcid
      exact chosen_not_stored db p hf r hr hcid

theorem reachable_unique (db : Store) (h : Reachable db) : UniqueArticleIDs db := by
  induction h with
  | empty => exact List.Pairwise.nil
  | create db o p _ ih => exact uniqueArticleIDs_step db o p ih

/-- C7: in every table reachable from the empty one by `CreateTimeSlice` calls, no two
rows of one contract carry the same `top_article_id`. A call on such a table that
returns an error leaves the table as it was; a call that succeeds adds to the article
IDs of the payload's contract exactly one value, which was not among them before, and
leaves the article IDs of every other contract as they were. -/
theorem reachable_uniqueArticleIDs (db : Store) (hreach : Reachable db) :
    UniqueArticleIDs db ∧
    ∀ (o : StoreOutcomes) (p : IncomingPayload),
      ((CreateTimeSlice db o p).1.2 ≠ none → (CreateTimeSlice db o p).2 = db) ∧
      ((CreateTimeSlice db o p).1.2 = none →
        (highestNew p.ArticleIDs (knownIDs db p.ContractID)).1 ∉
          selectTopArticleIDs db p.ContractID ∧
        selectTopArticleIDs (CreateTimeSlice db o p).2 p.ContractID =
          selectTopArticleIDs db p.ContractID ++
            [(highestNew p.ArticleIDs (knownIDs db p.ContractID)).1]) ∧
      (∀ c, c ≠ p.ContractID →
        selectTopArticleIDs (CreateTimeSlice db o p).2 c = selectTopArticleIDs db c) := by
  refine ⟨reachable_unique db hreach, ?_⟩
  intro o p
  rcases CreateTimeSlice_outcome db o p with hc | hc
  · refine ⟨fun _ => hc.1, fun hok => absurd hok hc.2, fun c _ => by rw [hc.1]⟩
  · obtain ⟨hf, hres⟩ := hc
    refine ⟨fun herr => ?_, fun _ => ⟨?_, ?_⟩, ?_⟩
    · rw [hres] at herr
      exact absurd rfl herr
    · have hk := ((highestNew_inv p.ArticleIDs (knownIDs db p.ContractID)).2 hf).2.1
      simpa [knownIDs] using hk
    · rw [hres, selectTopArticleIDs_append, selectTopArticleIDs_reconciled]
      simp [selectTopArticleIDs, whereContract, newRow]
    · intro c hcne
      rw [hres, selectTopArticleIDs_append, selectTopArticleIDs_reconciled]
      have : ¬ p.ContractID = c := fun h => hcne h.symm
      simp [selectTopArticleIDs, whereContract, newRow, this]

theorem storeTwoRows_reachable : Reachable storeTwoRows :=
  Reachable.create _ _ payloadOtherDay
    (Reachable.create _ _ payloadKnown
      (Reachable.create [] _ scenarioPayload1 Reachable.empty))

theorem reachable_uniqueArticleIDs_witness :
    Reachable storeTwoRows ∧
    selectTopArticleIDs storeTwoRows "C1" = [9, 12] ∧
    UniqueArticleIDs storeTwoRows ∧
    (CreateTimeSlice storeTwoRows (StoreOutcomes.ok 4 ⟨400⟩) payloadMixed).1 = (4, none) ∧
    (highestNew payloadMixed.ArticleIDs (knownIDs storeTwoRows payloadMixed.ContractID)).1 ∉
      selectTopArticleIDs storeTwoRows payloadMixed.ContractID ∧
    selectTopArticleIDs
        (CreateTimeSlice storeTwoRows (StoreOutcomes.ok 4 ⟨400⟩) payloadMixed).2
        payloadMixed.ContractID =
      selectTopArticleIDs storeTwoRows payloadMixed.ContractID ++
        [(highestNew payloadMixed.ArticleIDs
          (knownIDs storeTwoRows payloadMixed.ContractID)).1] ∧
    (CreateTimeSlice storeTwoRows streamCut payloadMixed).2 = storeTwoRows :=
  have thm := reachable_uniqueArticleIDs storeTwoRows storeTwoRows_reachable
  have hok : (CreateTimeSlice storeTwoRows (StoreOutcomes.ok 4 ⟨400⟩) payloadMixed).1.2 =
      none := by decide
  have hcut : (CreateTimeSlice storeTwoRows streamCut payloadMixed).1.2 ≠ none := by decide
  ⟨storeTwoRows_reachable, by decide, thm.1, by decide,
    ((thm.2 (StoreOutcomes.ok 4 ⟨400⟩) payloadMixed).2.1 hok).1,
    ((thm.2 (StoreOutcomes.ok 4 ⟨400⟩) payloadMixed).2.1 hok).2,
    (thm.2 streamCut payloadMixed).1 hcut⟩

/-- Rows of the payload's contract lie on the day of the incoming date once step 3
is done, provided the days were uniform before. -/
theorem reconciled_day (db : Store) (p : IncomingPayload) (h : UniformInvoiceDay db)
    (a : TimeSlice) (ha : a ∈ reconciled db p) (hc : a.ContractID = p.ContractID) :
    day a.InvoiceDate = day p.InvoiceDate := by
  obtain ⟨r, hr, hsame, hcase⟩ := mem_reconciled db p a ha
  rcases hcase with heq | ⟨hd, _⟩
  · subst heq
    have hmem : a ∈ reconciled db p := ha
    unfold reconciled at hmem
    cases hl : latestInvoiceDate db p.ContractID with
    | none =>
      have hempty := latestInvoiceDate_none db p.ContractID hl
      have : a ∈ whereContract db p.ContractID := (mem_whereContract _ _ _).2 ⟨hr, hc⟩
      rw [hempty] at this
      cases this
    | some t =>
      obtain ⟨r0, hr0, hr0t⟩ := latestInvoiceDate_mem db p.ContractID t hl
      have hr0' := (mem_whereContract _ _ _).1 hr0
      have hat : day a.InvoiceDate = day t := by
        rw [← hr0t]
        exact h a hr r0 hr0'.1 (by rw [hc, hr0'.2])
      cases hdiff : invoiceDateDiffers (some t) p.InvoiceDate
      · rw [hat]
        by_contra hne
        have := (invoiceDateDiffers_some t p.InvoiceDate).2 hne
        rw [hdiff] at this
        cases this
      · rw [hl, hdiff] at hmem
        simp only [if_true] at hmem
        unfold updateInvoiceDate at hmem
        obtain ⟨r1, _, hr1⟩ := List.mem_map.1 hmem
        by_cases hc1 : r1.ContractID = p.ContractID
        · rw [if_pos hc1] at hr1
          rw [← hr1]
        · rw [if_neg hc1] at hr1
          rw [hr1] at hc1
          exact absurd hc hc1
  · rw [hd]

theorem reconciled_other (db : Store) (p : IncomingPayload)
    (a : TimeSlice) (ha : a ∈ reconciled db p) (hc : a.ContractID ≠ p.ContractID) :
    a ∈ db := by
  obtain ⟨r, hr, hsame, _⟩ := mem_reconciled db p a ha
  have hrc : r.ContractID ≠ p.ContractID := by
    rw [← hsame.2.1]; exact hc
  rw [hsame.2.2.2.2.2 hrc]
  exact hr

theorem uniformInvoiceDay_step (db : Store) (o : StoreOutcomes) (p : IncomingPayload)
    (h : UniformInvoiceDay db) : UniformInvoiceDay (CreateTimeSlice db o p).2 := by
  rcases CreateTimeSlice_outcome db o p with hc | hc
  · rw [hc.1]; exact h
  · obtain ⟨_, hres⟩ := hc
    rw [hres]
    have hday : ∀ a ∈ reconciled db p ++ [newRow db o p], a.ContractID = p.ContractID →
        day a.InvoiceDate = day p.InvoiceDate := by
      intro a ha hca
      rcases List.mem_append.1 ha with ha | ha
      · exact reconciled_day db p h a ha hca
      · rw [List.mem_singleton.1 ha]; rfl
    have hother : ∀ a ∈ reconciled db p ++ [newRow db o p], a.ContractID ≠ p.ContractID →
        a ∈ db := by
      intro a ha hca
      rcases List.mem_append.1 ha with ha | ha
      · exact reconciled_other db p a ha hca
      · rw [List.mem_singleton.1 ha] at hca
        exact absurd rfl hca
    intro a ha b hb hab
    by_cases hca : a.ContractID = p.ContractID
    · rw [hday a ha hca, hday b hb (by rw [← hab]; exact hca)]
    · exact h a (hother a ha hca) b (hother b hb (by rw [← hab]; exact hca)) hab

/-- C8: in every table reachable from the empty one by `CreateTimeSlice` calls, any
two rows of one contract have invoice dates that are equal after truncation to the
day. -/
theorem reachable_uniformInvoiceDay (db : Store) (hreach : Reachable db) :
    ∀ a ∈ db, ∀ b ∈ db, a.ContractID = b.ContractID →
      (a.InvoiceDate.Truncate (24 * Hour)) = (b.InvoiceDate.Truncate (24 * Hour)) := by
  have h : UniformInvoiceDay db := by
    induction hreach with
    | empty =>
      intro a ha
      cases ha
    | create db o p _ ih => exact uniformInvoiceDay_step db o p ih
  exact h

theorem reachable_uniformInvoiceDay_witness :
    Reachable (scenarioCall3 [] (StoreOutcomes.ok 1 ⟨100⟩) (StoreOutcomes.ok 2 ⟨200⟩)
      (StoreOutcomes.ok 3 ⟨300⟩)).2 ∧
    ∀ a ∈ (scenarioCall3 [] (StoreOutcomes.ok 1 ⟨100⟩) (StoreOutcomes.ok 2 ⟨200⟩)
        (StoreOutcomes.ok 3 ⟨300⟩)).2,
      ∀ b ∈ (scenarioCall3 [] (StoreOutcomes.ok 1 ⟨100⟩) (StoreOutcomes.ok 2 ⟨200⟩)
          (StoreOutcomes.ok 3 ⟨300⟩)).2,
        a.ContractID = b.ContractID →
          (a.InvoiceDate.Truncate (24 * Hour)) = (b.InvoiceDate.Truncate (24 * Hour)) :=
  have hreach : Reachable (scenarioCall3 [] (StoreOutcomes.ok 1 ⟨100⟩) (StoreOutcomes.ok 2 ⟨200⟩)
      (StoreOutcomes.ok 3 ⟨300⟩)).2 :=
    Reachable.create _ _ payloadOtherDay
      (Reachable.create _ _ payloadKnown
        (Reachable.create [] _ scenarioPayload1 Reachable.empty))
  ⟨hreach, reachable_uniformInvoiceDay _ hreach⟩

/-- C9: whatever a call returns, the table afterwards consists of the rows that
existed before, in place and with `id`, `contract_id`, `top_article_id`, `validity_tag`
and `created_at` unchanged, rows of other contracts unchanged altogether, followed by at
most one added row. A call that returns an error adds no row and changes none; a call
that succeeds adds exactly the row with the assigned `id` and `created_at`, the
payload's contract, validity tag and invoice date, and the article chosen by
`highestNew` among the payload's IDs against the IDs stored for the contract. -/
theorem CreateTimeSlice_frame (db : Store) (o : StoreOutcomes) (p : IncomingPayload) :
    ∃ kept added : List TimeSlice,
      (CreateTimeSlice db o p).2 = kept ++ added ∧
      List.Forall₂ (SameButInvoiceDate p.ContractID) db kept ∧
      added.length ≤ 1 ∧
      ((CreateTimeSlice db o p).1.2 ≠ none → kept = db ∧ added = []) ∧
      ((CreateTimeSlice db o p).1.2 = none →
        added = [⟨o.newID, p.ContractID,
          (highestNew p.ArticleIDs (knownIDs db p.ContractID)).1,
          p.ValidityTag, p.InvoiceDate, o.createdAt⟩]) := by
  rcases CreateTimeSlice_outcome db o p with hc | hc
  · refine ⟨db, [], by rw [hc.1]; simp, ?_, by simp, fun _ => ⟨rfl, rfl⟩,
      fun hok => absurd hok hc.2⟩
    rw [List.forall₂_same]
    intro r _
    exact sameButInvoiceDate_refl _ r
  · obtain ⟨_, hres⟩ := hc
    refine ⟨reconciled db p, [newRow db o p], by rw [hres], reconciled_forall₂ db p,
      by simp, ?_, fun _ => rfl⟩
    intro herr
    rw [hres] at herr
    exact absurd rfl herr

end ContractService
